import Mathlib

set_option maxHeartbeats 1000000
set_option linter.unnecessarySeqFocus false
set_option linter.unusedVariables false
set_option maxRecDepth 4096

/-!
Verification development for the argon2-browser wrapper (lib/argon2.js).

The file shallowly embeds the wrapper's code:

* the defaulting of call parameters and the per-call buffer handling of
  `calcHash`, over an abstract engine (`Module._argon2_hash`,
  `Module._argon2_error_message`, `Module.allocate`, `Module._free`,
  `Module.Pointer_stringify`), which the wrapper treats as an external
  collaborator;
* the backend-selection condition and the linear-memory sizing expression of
  `argon2Hash`;
* the loading coordination of `argon2Hash` (global `Module`,
  `globalModuleIsFullyLoaded`, the memoised `loadArgon2WrapperPromise`, the
  `setTimeout` re-check and the `xhr` fetch) as a deterministic event-loop
  machine, with one task per pending callback, mirroring the single-threaded
  cooperative scheduling of the host.
-/

namespace Argon2

/-- The `ArgonType.Argon2d` enumeration value from the source. -/
def Argon2d : Nat := 0

/-- The `ArgonType.Argon2i` enumeration value from the source. -/
def Argon2i : Nat := 1

/-- JS defaulting `params.x || d` as used throughout `calcHash`: a missing
field (`undefined`) and the number `0` are both falsy and fall back to the
default. -/
def jsOr : Option Nat → Nat → Nat
  | none, d => d
  | some v, d => if v = 0 then d else v

/-- JS truthiness of an optional string: `undefined` and the empty string are
falsy. -/
def jsTruthyOpt : Option String → Bool
  | none => false
  | some s => !(s == "")

/-- Number of UTF-16 code units a character occupies in a JS string. -/
def utf16Units (c : Char) : Nat :=
  if c.val.toNat < 0x10000 then 1 else 2

/-- JS `String.prototype.length` of a list of characters: the UTF-16 code-unit
count. -/
def utf16LenL (l : List Char) : Nat :=
  (l.map utf16Units).sum

/-- JS `String.prototype.length`: the UTF-16 code-unit count of the string. -/
def utf16Len (s : String) : Nat :=
  utf16LenL s.data

/-- UTF-8 bytes of one character. -/
def utf8Bytes (c : Char) : List Nat :=
  let v := c.val.toNat
  if v < 0x80 then [v]
  else if v < 0x800 then [0xC0 + v / 64, 0x80 + v % 64]
  else if v < 0x10000 then [0xE0 + v / 4096, 0x80 + v / 64 % 64, 0x80 + v % 64]
  else [0xF0 + v / 262144, 0x80 + v / 4096 % 64, 0x80 + v / 64 % 64, 0x80 + v % 64]

/-- UTF-8 encoding of a list of characters. -/
def utf8BytesL (l : List Char) : List Nat :=
  l.foldr (fun c acc => utf8Bytes c ++ acc) []

/-- Modelled from the spec: `Module.intArrayFromString`, the engine-provided
text encoder used by `allocateArray` for string inputs, is not part of the
wrapper's own source; the spec describes it as encoding a string "to bytes
using the engine's native text representation", which for this engine is
UTF-8. -/
def intArrayFromString (s : String) : List Nat :=
  utf8BytesL s.data

/-- A `params.pass` / `params.salt` value: the wrapper accepts either a JS
string or a byte array (`Uint8Array` / `Array`). -/
inductive PassValue where
  | str (s : String)
  | bytes (b : List Nat)
deriving DecidableEq

/-- JS `.length` of a password/salt value: code-unit count for strings,
element count for arrays, exactly as `params.pass.length` in `calcHash`. -/
def jsLength : PassValue → Nat
  | .str s => utf16Len s
  | .bytes b => b.length

/-- The byte array handed to `Module.allocate` by `allocateArray`: an array
input is passed through, a string input is encoded first. -/
def allocateArrayBytes : PassValue → List Nat
  | .str s => intArrayFromString s
  | .bytes b => b

/-- The engine's linear-memory allocation arena: the bump pointer of the next
address handed out by `Module.allocate`, and the addresses of the currently
live (not yet freed) allocations, most recent first. Address 0 plays NULL and
is never handed out. -/
structure Arena where
  next : Nat
  live : List Nat
deriving DecidableEq

/-- The arena at the start of one `calcHash` call. -/
def arena0 : Arena := ⟨1, []⟩

/-- `Module.allocate`: carve a fresh region of the given length, returning its
address; the bump pointer advances past the region so distinct allocations
have distinct addresses. -/
def arenaAlloc (a : Arena) (len : Nat) : Nat × Arena :=
  (a.next, ⟨a.next + len + 1, a.next :: a.live⟩)

/-- `Module._free`: drop the first live allocation with the given address. -/
def arenaFree (a : Arena) (x : Nat) : Arena :=
  ⟨a.next, a.live.erase x⟩

/-- The argument tuple the wrapper passes to `Module._argon2_hash`. -/
structure HashArgs where
  tCost : Nat
  mCost : Nat
  parallelism : Nat
  pwd : Nat
  pwdlen : Nat
  salt : Nat
  saltlen : Nat
  hashPtr : Nat
  hashlen : Nat
  encodedPtr : Nat
  encodedlen : Nat
  argon2Type : Nat
  version : Nat
deriving DecidableEq

/-- Behaviour of the external engine during one `calcHash` call:
`hashCall` models `Module._argon2_hash` (either a thrown JS exception,
carried as its message string, or an integer status); `hashOutput i` is the
byte the engine left at offset `i` of the output-hash region (`HEAP8[hash+i]`
up to sign, so it is read modulo 256 as the code's `0xFF &` and `Uint8Array`
coercions do); `encodedOutput i` is the byte at offset `i` of the
encoded-output region; `errorMessage r` models
`Module.Pointer_stringify(Module._argon2_error_message(res))` for status
`res` (`none` when the call threw and `res` is `undefined`), which may itself
throw; `freeFails x` tells whether `Module._free x` throws. -/
structure EngineBehavior where
  hashCall : HashArgs → Except String Int
  hashOutput : Nat → Nat
  encodedOutput : Nat → Nat
  errorMessage : Option Int → Except String String
  freeFails : Nat → Bool

/-- Free a list of addresses in order inside one `try` block, as the cleanup
of `calcHash` does: a throwing `free` aborts the rest of the block (the
exception is swallowed by the surrounding `catch`). Returns the arena and the
addresses actually freed, in order. -/
def tryFreeList (fails : Nat → Bool) : Arena → List Nat → Arena × List Nat
  | a, [] => (a, [])
  | a, x :: xs =>
    if fails x then (a, [])
    else
      let r := tryFreeList fails (arenaFree a x) xs
      (r.1, x :: r.2)

/-- Lowercase hexadecimal digit. -/
def hexDigit (n : Nat) : Char :=
  if n < 10 then Char.ofNat (48 + n) else Char.ofNat (87 + n)

/-- Two-character lowercase hex form of a byte, the value of the source's
`('0' + (0xFF & byte).toString(16)).slice(-2)` for bytes below 256. -/
def hexByte (b : Nat) : String :=
  String.mk [hexDigit (b / 16), hexDigit (b % 16)]

/-- The accumulation `hashStr += ...` over a byte list. -/
def hexEncode (l : List Nat) : String :=
  l.foldl (fun acc b => acc ++ hexByte b) ""

/-- `Module.Pointer_stringify` on the 512-byte encoded-output region: the
bytes of the region up to (excluding) the first NUL terminator. -/
def readCString (f : Nat → Nat) : List Nat :=
  ((List.range 512).map fun i => f i % 256).takeWhile fun b => b ≠ 0

/-- The success value `{ hash, hashHex, encoded }` built by `calcHash`. -/
structure HashOk where
  hash : List Nat
  hashHex : String
  encoded : List Nat
deriving DecidableEq

/-- The failure value `{ message, code }` built by `calcHash`: `message` is
`undefined` when both the engine call and the error-message lookup threw, and
`code` is `undefined` when the engine call threw before returning a status. -/
structure CalcErr where
  message : Option String
  code : Option Int
deriving DecidableEq

/-- How one `calcHash` call ends: it returns the success object, throws the
failure object, or — when the failure object's `message` ended up falsy —
falls through the final `if (err)` and returns the failure object as if it
were a result. -/
inductive CalcOutcome where
  | ok (r : HashOk)
  | thrown (e : CalcErr)
  | retErr (e : CalcErr)
deriving DecidableEq

/-- Result of one `calcHash` call: its outcome, the arena after the cleanup
block, and the addresses the cleanup block actually freed, in order. -/
structure CalcState where
  outcome : CalcOutcome
  arena : Arena
  freed : List Nat
deriving DecidableEq

/-- The parameter object consumed by `calcHash`; absent optional fields are
`none` (`undefined`). -/
structure CalcParams where
  pass : PassValue
  salt : PassValue
  time : Option Nat := none
  mem : Option Nat := none
  parallelism : Option Nat := none
  hashLen : Option Nat := none
  type : Option Nat := none
deriving DecidableEq

/-- The prologue of `calcHash`: defaults the numeric parameters, allocates the
password, salt, output-hash and encoded buffers in that order, and assembles
the argument tuple for `Module._argon2_hash` (with the fixed version tag
`0x13`). Returns the argument tuple and the arena after the four
allocations. -/
def calcParts (p : CalcParams) : HashArgs × Arena :=
  let r1 := arenaAlloc arena0 (allocateArrayBytes p.pass).length
  let r2 := arenaAlloc r1.2 (allocateArrayBytes p.salt).length
  let hashlen := jsOr p.hashLen 24
  let r3 := arenaAlloc r2.2 hashlen
  let r4 := arenaAlloc r3.2 512
  (⟨jsOr p.time 1, jsOr p.mem 1024, jsOr p.parallelism 1,
    r1.1, jsLength p.pass, r2.1, jsLength p.salt,
    r3.1, hashlen, r4.1, 512, jsOr p.type Argon2d, 0x13⟩, r4.2)

/-- The argument tuple `calcHash` passes to `Module._argon2_hash`. -/
def calcArgs (p : CalcParams) : HashArgs :=
  (calcParts p).1

/-- The four addresses `calcHash` frees in its cleanup block, in source
order: password, salt, output hash, encoded buffer. -/
def calcAddrs (p : CalcParams) : List Nat :=
  [(calcArgs p).pwd, (calcArgs p).salt, (calcArgs p).hashPtr, (calcArgs p).encodedPtr]

/-- One `calcHash` call against engine behaviour `B`. Mirrors the source:
invoke `Module._argon2_hash` catching a thrown exception; on status 0 with no
exception read `hashlen` bytes of the output region, hex-encode them and read
the encoded C string; otherwise resolve an error message, preferring the
caught exception and falling back to the engine's `_argon2_error_message`
lookup (whose own exception is swallowed, leaving the message unset); free
the four buffers in a single try/catch; finally `throw result` when the
message is truthy, `return result` otherwise. -/
def calcHash (B : EngineBehavior) (p : CalcParams) : CalcState :=
  let args := calcArgs p
  let fr := tryFreeList B.freeFails (calcParts p).2 (calcAddrs p)
  match B.hashCall args with
  | .ok res =>
    if res = 0 then
      let hashArr := (List.range args.hashlen).map fun i => B.hashOutput i % 256
      ⟨.ok ⟨hashArr, hexEncode hashArr, readCString B.encodedOutput⟩, fr.1, fr.2⟩
    else
      let err : Option String :=
        match B.errorMessage (some res) with
        | .ok m => some m
        | .error _ => none
      if jsTruthyOpt err then ⟨.thrown ⟨err, some res⟩, fr.1, fr.2⟩
      else ⟨.retErr ⟨err, some res⟩, fr.1, fr.2⟩
  | .error e =>
    let err0 : Option String := some e
    let err : Option String :=
      if jsTruthyOpt err0 then err0
      else
        match B.errorMessage none with
        | .ok m => some m
        | .error _ => err0
    if jsTruthyOpt err then ⟨.thrown ⟨err, none⟩, fr.1, fr.2⟩
    else ⟨.retErr ⟨err, none⟩, fr.1, fr.2⟩

/-- The two backends `argon2Hash` can run on. -/
inductive Backend where
  | wasm
  | fallback
deriving DecidableEq

/-- JS truthiness of an optional URL parameter. -/
def jsTruthyStr : Option String → Bool
  | none => false
  | some s => !(s == "")

/-- The backend decision at the top of `argon2Hash`: the fallback is taken
exactly when `!global.WebAssembly || !params.wasmFileUrl ||
!params.argon2FileUrl`. It is a pure function of the capability probe and the
two locators. -/
def selectedBackend (webAssemblySupported : Bool)
    (wasmFileUrl argon2FileUrl : Option String) : Backend :=
  if !webAssemblySupported || !jsTruthyStr wasmFileUrl || !jsTruthyStr argon2FileUrl then
    .fallback
  else .wasm

/-- The source's `KB` constant. Note it is `1024 * 1024`, not `1024`. -/
def srcKB : Nat := 1024 * 1024

/-- The source's `MB` constant. -/
def srcMB : Nat := 1024 * srcKB

/-- The source's `GB` constant. -/
def srcGB : Nat := 1024 * srcMB

/-- The source's `WASM_PAGE_SIZE` constant: 64 KiB. -/
def WASM_PAGE_SIZE : Nat := 64 * 1024

/-- The source's `totalMemory`: `(2 * GB - 64 * KB) / 1024 / WASM_PAGE_SIZE`
with the source's own (inflated) units. -/
def totalMemory : Nat := (2 * srcGB - 64 * srcKB) / 1024 / WASM_PAGE_SIZE

/-- The source's `initialMemory` expression:
`Math.min(Math.max(Math.ceil(params.mem * 1024 / WASM_PAGE_SIZE), 256) + 256, totalMemory)`. -/
def initialMemory (mem : Nat) : Nat :=
  min (max ((mem * 1024 + (WASM_PAGE_SIZE - 1)) / WASM_PAGE_SIZE) 256 + 256) totalMemory

/-- The platform ceiling as the spec intends it: the page count of
2 GiB minus 64 KiB, with genuine binary units. -/
def specTotalMemory : Nat := (2 * 1024 * 1024 * 1024 - 64 * 1024) / 65536

/-- The initial-memory formula as the spec states it: the same expression as
the code but clamped at the 2 GiB − 64 KiB page ceiling. -/
def specInitialMemory (mem : Nat) : Nat :=
  min (max ((mem * 1024 + 65535) / 65536) 256 + 256) specTotalMemory

/-- A lookup that behaves as the engine's documentation promises: for every
status (and for `undefined`), `_argon2_error_message` returns, without
throwing, a non-empty human-readable message. -/
def WellBehavedLookup (B : EngineBehavior) : Prop :=
  ∀ r : Option Int, ∃ m, B.errorMessage r = .ok m ∧ m ≠ ""

/-! Helper lemmas about the calcHash model. -/

theorem calcParts_spec (p : CalcParams) :
    calcParts p = (⟨jsOr p.time 1, jsOr p.mem 1024, jsOr p.parallelism 1,
      1, jsLength p.pass,
      (allocateArrayBytes p.pass).length + 2, jsLength p.salt,
      (allocateArrayBytes p.pass).length + (allocateArrayBytes p.salt).length + 3,
      jsOr p.hashLen 24,
      (allocateArrayBytes p.pass).length + (allocateArrayBytes p.salt).length
        + jsOr p.hashLen 24 + 4,
      512, jsOr p.type Argon2d, 0x13⟩,
      ⟨(allocateArrayBytes p.pass).length + (allocateArrayBytes p.salt).length
        + jsOr p.hashLen 24 + 517,
       [(allocateArrayBytes p.pass).length + (allocateArrayBytes p.salt).length
          + jsOr p.hashLen 24 + 4,
        (allocateArrayBytes p.pass).length + (allocateArrayBytes p.salt).length + 3,
        (allocateArrayBytes p.pass).length + 2, 1]⟩) := by
  simp only [calcParts, arenaAlloc, arena0, Prod.mk.injEq, HashArgs.mk.injEq,
    Arena.mk.injEq, List.cons.injEq, and_true, true_and]
  omega

theorem calcAddrs_spec (p : CalcParams) :
    calcAddrs p =
      [1, (allocateArrayBytes p.pass).length + 2,
       (allocateArrayBytes p.pass).length + (allocateArrayBytes p.salt).length + 3,
       (allocateArrayBytes p.pass).length + (allocateArrayBytes p.salt).length
         + jsOr p.hashLen 24 + 4] := by
  simp [calcAddrs, calcArgs, calcParts_spec]

theorem calcArgs_hashlen (p : CalcParams) :
    (calcArgs p).hashlen = jsOr p.hashLen 24 := by
  simp [calcArgs, calcParts_spec]

theorem hexByte_length (b : Nat) : (hexByte b).length = 2 := rfl

theorem hexEncode_foldl_length (l : List Nat) :
    ∀ init : String,
      (l.foldl (fun acc b => acc ++ hexByte b) init).length = init.length + 2 * l.length := by
  induction l with
  | nil => intro init; simp
  | cons b t ih =>
    intro init
    rw [List.foldl_cons, ih, String.length_append, hexByte_length]
    simp [List.length_cons]
    omega

theorem hexEncode_length (l : List Nat) : (hexEncode l).length = 2 * l.length := by
  simpa [hexEncode] using hexEncode_foldl_length l ""

theorem tryFree_four (a1 a2 a3 a4 n : Nat)
    (h12 : a1 < a2) (h23 : a2 < a3) (h34 : a3 < a4)
    (f : Nat → Bool) (hf : ∀ x ∈ [a1, a2, a3, a4], f x = false) :
    tryFreeList f ⟨n, [a4, a3, a2, a1]⟩ [a1, a2, a3, a4] = (⟨n, []⟩, [a1, a2, a3, a4]) := by
  have f1 : f a1 = false := hf a1 (by simp)
  have f2 : f a2 = false := hf a2 (by simp)
  have f3 : f a3 = false := hf a3 (by simp)
  have f4 : f a4 = false := hf a4 (by simp)
  have e41 : (a4 == a1) = false := by simp; omega
  have e31 : (a3 == a1) = false := by simp; omega
  have e21 : (a2 == a1) = false := by simp; omega
  have e42 : (a4 == a2) = false := by simp; omega
  have e32 : (a3 == a2) = false := by simp; omega
  have e43 : (a4 == a3) = false := by simp; omega
  simp [tryFreeList, arenaFree, List.erase_cons, f1, f2, f3, f4,
    e41, e31, e21, e42, e32, e43]

theorem calcHash_freed (B : EngineBehavior) (p : CalcParams) :
    (calcHash B p).freed = (tryFreeList B.freeFails (calcParts p).2 (calcAddrs p)).2 := by
  cases hc : B.hashCall (calcArgs p) <;> simp only [calcHash, hc] <;> split_ifs <;> rfl

theorem calcHash_arena (B : EngineBehavior) (p : CalcParams) :
    (calcHash B p).arena = (tryFreeList B.freeFails (calcParts p).2 (calcAddrs p)).1 := by
  cases hc : B.hashCall (calcArgs p) <;> simp only [calcHash, hc] <;> split_ifs <;> rfl

theorem utf16Units_le_utf8 (c : Char) : utf16Units c ≤ (utf8Bytes c).length := by
  simp only [utf16Units, utf8Bytes]
  split_ifs <;> simp <;> omega

theorem utf16Units_lt_utf8 (c : Char) (h : 0x80 ≤ c.val.toNat) :
    utf16Units c < (utf8Bytes c).length := by
  simp only [utf16Units, utf8Bytes]
  split_ifs <;> simp <;> omega

theorem utf16LenL_le_utf8 (l : List Char) : utf16LenL l ≤ (utf8BytesL l).length := by
  induction l with
  | nil => simp [utf16LenL, utf8BytesL]
  | cons c t ih =>
    have hc := utf16Units_le_utf8 c
    simp only [utf16LenL, utf8BytesL, List.foldr_cons, List.map_cons, List.sum_cons,
      List.length_append] at *
    omega

theorem utf16LenL_lt_utf8 (l : List Char) (h : ∃ c ∈ l, 0x80 ≤ c.val.toNat) :
    utf16LenL l < (utf8BytesL l).length := by
  induction l with
  | nil => simp at h
  | cons c t ih =>
    rcases h with ⟨d, hd, hbig⟩
    rcases List.mem_cons.mp hd with rfl | hdt
    · have h1 := utf16Units_lt_utf8 d hbig
      have h2 := utf16LenL_le_utf8 t
      simp only [utf16LenL, utf8BytesL, List.foldr_cons, List.map_cons, List.sum_cons,
        List.length_append] at *
      omega
    · have h1 := utf16Units_le_utf8 c
      have h2 := ih ⟨d, hdt, hbig⟩
      simp only [utf16LenL, utf8BytesL, List.foldr_cons, List.map_cons, List.sum_cons,
        List.length_append] at *
      omega

/-! Claim theorems for the backend selector, memory sizing, parameter
defaulting and string marshalling. -/

/-- C8. For every call, `argon2Hash` takes the fallback path exactly when the
WebAssembly capability probe is falsy or either primary-backend locator
(`wasmFileUrl`, `argon2FileUrl`) is absent (falsy); otherwise it takes the
primary wasm path. The decision is a pure function of those three inputs. -/
theorem backend_selection_rule :
    ∀ (w : Bool) (u1 u2 : Option String),
      (selectedBackend w u1 u2 = .fallback ↔
        (w = false ∨ jsTruthyStr u1 = false ∨ jsTruthyStr u2 = false))
      ∧ (selectedBackend w u1 u2 = .wasm ↔
        (w = true ∧ jsTruthyStr u1 = true ∧ jsTruthyStr u2 = true)) := by
  intro w u1 u2
  cases w <;> cases h1 : jsTruthyStr u1 <;> cases h2 : jsTruthyStr u2 <;>
    simp [selectedBackend, h1, h2]

/-- C7. The engine's initial linear-memory size in 64-KiB pages equals
`min(max(ceil(mem * 1024 / 65536), 256) + 256, t)` where the ceiling `t` is
32767 pages, the page count of 2 GiB minus 64 KiB (the source's inflated
`KB`/`MB`/`GB` constants cancel against its extra `/ 1024`); requests near
the ceiling are clamped, never exceeding 32767 pages, and when the clamp does
not bind the configured size exceeds the requested page count by the fixed
256-page safety margin. -/
theorem initial_memory_spec (mem : Nat) :
    initialMemory mem = specInitialMemory mem
    ∧ totalMemory = 32767
    ∧ specTotalMemory = 32767
    ∧ initialMemory mem ≤ 32767
    ∧ (max ((mem * 1024 + 65535) / 65536) 256 + 256 ≤ totalMemory →
        (mem * 1024 + 65535) / 65536 + 256 ≤ initialMemory mem) := by
  have ht : totalMemory = 32767 := by decide
  have hs : specTotalMemory = 32767 := by decide
  have hw : WASM_PAGE_SIZE = 65536 := by decide
  refine ⟨?_, ht, hs, ?_, ?_⟩
  · simp [initialMemory, specInitialMemory, ht, hs, hw]
  · exact le_trans (min_le_right _ _) (le_of_eq ht)
  · intro h
    rw [ht] at h
    simp only [initialMemory, ht, hw]
    omega

/-- Witness for C7 at the concrete request of 1024 KiB: the clamp does not
bind and the configured size (512 pages) carries the 256-page margin above
the 16 requested pages. -/
theorem initial_memory_spec_witness :
    (max ((1024 * 1024 + 65535) / 65536) 256 + 256 ≤ totalMemory)
    ∧ (1024 * 1024 + 65535) / 65536 + 256 ≤ initialMemory 1024 :=
  ⟨by decide, (initial_memory_spec 1024).2.2.2.2 (by decide)⟩

/-- C9. `calcHash` invokes the engine with defaults `time = 1`,
`mem = 1024`, `parallelism = 1`, `hashLen = 24` and `type = Argon2d` when the
corresponding `params` fields are absent, always passes the fixed version tag
`0x13`, and passes explicitly supplied values through unchanged (numeric costs
are nonzero by the parameter contract; both enumeration values of `type`
survive the `||` defaulting because the default is `Argon2d = 0`). -/
theorem calc_defaults (p : CalcParams) :
    (calcArgs p).version = 0x13
    ∧ (p.time = none → (calcArgs p).tCost = 1)
    ∧ (p.mem = none → (calcArgs p).mCost = 1024)
    ∧ (p.parallelism = none → (calcArgs p).parallelism = 1)
    ∧ (p.hashLen = none → (calcArgs p).hashlen = 24)
    ∧ (p.type = none → (calcArgs p).argon2Type = Argon2d)
    ∧ (∀ v, 0 < v → p.time = some v → (calcArgs p).tCost = v)
    ∧ (∀ v, 0 < v → p.mem = some v → (calcArgs p).mCost = v)
    ∧ (∀ v, 0 < v → p.parallelism = some v → (calcArgs p).parallelism = v)
    ∧ (∀ v, 0 < v → p.hashLen = some v → (calcArgs p).hashlen = v)
    ∧ (∀ v, (v = Argon2d ∨ v = Argon2i) → p.type = some v →
        (calcArgs p).argon2Type = v) := by
  refine ⟨?_, ?_, ?_, ?_, ?_, ?_, ?_, ?_, ?_, ?_, ?_⟩
  · simp [calcArgs, calcParts_spec]
  · intro h; simp [calcArgs, calcParts_spec, jsOr, h]
  · intro h; simp [calcArgs, calcParts_spec, jsOr, h]
  · intro h; simp [calcArgs, calcParts_spec, jsOr, h]
  · intro h; simp [calcArgs, calcParts_spec, jsOr, h]
  · intro h; simp [calcArgs, calcParts_spec, jsOr, h]
  · intro v hv h; simp [calcArgs, calcParts_spec, jsOr, h]; omega
  · intro v hv h; simp [calcArgs, calcParts_spec, jsOr, h]; omega
  · intro v hv h; simp [calcArgs, calcParts_spec, jsOr, h]; omega
  · intro v hv h; simp [calcArgs, calcParts_spec, jsOr, h]; omega
  · intro v hv h
    rcases hv with rfl | rfl <;> simp [calcArgs, calcParts_spec, jsOr, h, Argon2d, Argon2i]

/-- A parameter object with every optional field absent. -/
def paramsAbsent : CalcParams := ⟨.bytes [1], .bytes [2], none, none, none, none, none⟩

/-- A parameter object with every optional field explicitly supplied. -/
def paramsSupplied : CalcParams :=
  ⟨.bytes [1], .bytes [2], some 3, some 64, some 2, some 32, some 1⟩

/-- Witness for C9: at a concrete call with absent fields the engine receives
the documented defaults, and at a concrete call with supplied fields it
receives them unchanged. -/
theorem calc_defaults_witness :
    ((calcArgs paramsAbsent).tCost = 1 ∧ (calcArgs paramsAbsent).mCost = 1024
      ∧ (calcArgs paramsAbsent).parallelism = 1 ∧ (calcArgs paramsAbsent).hashlen = 24
      ∧ (calcArgs paramsAbsent).argon2Type = Argon2d
      ∧ (calcArgs paramsAbsent).version = 0x13)
    ∧ ((calcArgs paramsSupplied).tCost = 3 ∧ (calcArgs paramsSupplied).mCost = 64
      ∧ (calcArgs paramsSupplied).parallelism = 2 ∧ (calcArgs paramsSupplied).hashlen = 32
      ∧ (calcArgs paramsSupplied).argon2Type = Argon2i) := by
  obtain ⟨hv, ht, hm, hp, hh, hty, ht2, hm2, hp2, hh2, hty2⟩ := calc_defaults paramsAbsent
  obtain ⟨_, _, _, _, _, _, st, sm, sp, sh, sty⟩ := calc_defaults paramsSupplied
  exact ⟨⟨ht rfl, hm rfl, hp rfl, hh rfl, hty rfl, hv⟩,
    st 3 (by decide) rfl, sm 64 (by decide) rfl, sp 2 (by decide) rfl,
    sh 32 (by decide) rfl, sty 1 (Or.inr rfl) rfl⟩

/-- C10. For a string-valued password (and salt), `calcHash` passes the JS
code-unit count (`String.prototype.length`) as the byte length, while
`allocateArray` copies the UTF-8 encoding into the arena; for a string
containing a character outside the one-byte range the two counts differ (the
encoding is strictly longer). -/
theorem string_length_mismatch (p : CalcParams) (s t : String)
    (hp : p.pass = .str s) (hq : p.salt = .str t)
    (h : ∃ c ∈ s.data, 0x80 ≤ c.val.toNat) :
    (calcArgs p).pwdlen = utf16Len s
    ∧ allocateArrayBytes p.pass = intArrayFromString s
    ∧ (calcArgs p).saltlen = utf16Len t
    ∧ allocateArrayBytes p.salt = intArrayFromString t
    ∧ (calcArgs p).pwdlen ≠ (allocateArrayBytes p.pass).length
    ∧ ((∃ c ∈ t.data, 0x80 ≤ c.val.toNat) →
        (calcArgs p).saltlen ≠ (allocateArrayBytes p.salt).length) := by
  have hlt := utf16LenL_lt_utf8 s.data h
  refine ⟨by simp [calcArgs, calcParts_spec, hp, jsLength],
    by simp [hp, allocateArrayBytes],
    by simp [calcArgs, calcParts_spec, hq, jsLength],
    by simp [hq, allocateArrayBytes], ?_, ?_⟩
  · simp only [calcArgs, calcParts_spec, hp, jsLength, allocateArrayBytes,
      intArrayFromString, utf16Len]
    omega
  · intro ht
    have hlt2 := utf16LenL_lt_utf8 t.data ht
    simp only [calcArgs, calcParts_spec, hq, jsLength, allocateArrayBytes,
      intArrayFromString, utf16Len]
    omega

/-- C4. When `Module._argon2_hash` returns a non-zero status without
throwing, and the engine's error-message lookup yields a non-empty message
for that status, `calcHash` throws a failure object whose `code` is exactly
that status and whose `message` is the lookup's result. The same `calcHash`
runs on both the primary and the fallback backend path. -/
theorem nonzero_status_error (B : EngineBehavior) (p : CalcParams) (s : Int) (m : String)
    (hcall : B.hashCall (calcArgs p) = .ok s) (hs : s ≠ 0)
    (hmsg : B.errorMessage (some s) = .ok m) (hm : m ≠ "") :
    (calcHash B p).outcome = .thrown ⟨some m, some s⟩ := by
  simp [calcHash, hcall, hs, hmsg, jsTruthyOpt, hm]

/-- Engine behaviour for the C4 witness: status 1 with the engine-defined
message for it. -/
def engineStatusOne : EngineBehavior :=
  ⟨fun _ => .ok 1, fun _ => 0, fun _ => 0, fun _ => .ok "output pointer mismatch",
    fun _ => false⟩

/-- Witness for C4 at engine status code 1: the rejection carries `code` 1 and
the non-empty message from the native lookup. -/
theorem nonzero_status_error_witness :
    (calcHash engineStatusOne paramsAbsent).outcome
      = .thrown ⟨some "output pointer mismatch", some 1⟩ :=
  nonzero_status_error engineStatusOne paramsAbsent 1 "output pointer mismatch"
    rfl (by decide) rfl (by decide)

/-- C5. Under an engine whose error-message lookup is well behaved (never
throws, never returns an empty message — what its interface contract
promises), a `calcHash` call returns the success object exactly when the
engine returned status 0 without throwing; in that case the raw hash is the
`hashLen` bytes read from the output region (so has length `hashLen`, the
supplied value or the default 24), its hex form is the lowercase hex encoding
of those bytes with length `2 * hashLen`, and the encoded form is the
NUL-terminated text of the encoded-output region; in every other case the
call throws the failure object — the two outcomes are mutually exclusive. -/
theorem success_failure_dichotomy (B : EngineBehavior) (p : CalcParams)
    (hB : WellBehavedLookup B) :
    ((∃ r, (calcHash B p).outcome = .ok r) ↔ B.hashCall (calcArgs p) = .ok 0)
    ∧ (∀ r, (calcHash B p).outcome = .ok r →
        r.hash = (List.range (jsOr p.hashLen 24)).map (fun i => B.hashOutput i % 256)
        ∧ r.hash.length = jsOr p.hashLen 24
        ∧ r.hashHex = hexEncode r.hash
        ∧ r.hashHex.length = 2 * jsOr p.hashLen 24
        ∧ r.encoded = readCString B.encodedOutput)
    ∧ ((∃ e, (calcHash B p).outcome = .thrown e) ↔ ¬ B.hashCall (calcArgs p) = .ok 0)
    ∧ ¬ ((∃ r, (calcHash B p).outcome = .ok r) ∧ ∃ e, (calcHash B p).outcome = .thrown e) := by
  have hlen : (calcArgs p).hashlen = jsOr p.hashLen 24 := calcArgs_hashlen p
  cases hc : B.hashCall (calcArgs p) with
  | ok s =>
    by_cases hs : s = 0
    · subst hs
      have hout : (calcHash B p).outcome =
          .ok ⟨(List.range (calcArgs p).hashlen).map (fun i => B.hashOutput i % 256),
            hexEncode ((List.range (calcArgs p).hashlen).map (fun i => B.hashOutput i % 256)),
            readCString B.encodedOutput⟩ := by
        simp [calcHash, hc]
      refine ⟨by simp [hout, hc], ?_, by simp [hout, hc], by simp [hout]⟩
      intro r hr
      rw [hout] at hr
      cases hr
      refine ⟨by rw [hlen], ?_, rfl, ?_, rfl⟩
      · simp [hlen]
      · rw [hexEncode_length]
        simp [hlen]
    · obtain ⟨m, hm, hne⟩ := hB (some s)
      have hout : (calcHash B p).outcome = .thrown ⟨some m, some s⟩ := by
        simp [calcHash, hc, hs, hm, jsTruthyOpt, hne]
      have hns : ¬ (Except.ok s : Except String Int) = .ok 0 := by
        simp [hs]
      refine ⟨by simp [hout, hc, hns], ?_, by simp [hout, hc, hns], by simp [hout]⟩
      intro r hr
      rw [hout] at hr
      cases hr
  | error e =>
    have hout : ∃ msg, (calcHash B p).outcome = .thrown ⟨some msg, none⟩ := by
      by_cases he : e = ""
      · obtain ⟨m, hm, hne⟩ := hB none
        exact ⟨m, by simp [calcHash, hc, he, jsTruthyOpt, hm, hne]⟩
      · exact ⟨e, by simp [calcHash, hc, jsTruthyOpt, he]⟩
    obtain ⟨msg, hout⟩ := hout
    refine ⟨by simp [hout, hc], ?_, by simp [hout, hc], by simp [hout]⟩
    intro r hr
    rw [hout] at hr
    cases hr

/-- Engine behaviour for the C5 witness: status 0, identity output bytes. -/
def engineStatusZero : EngineBehavior :=
  ⟨fun _ => .ok 0, fun i => i, fun _ => 0, fun _ => .ok "e", fun _ => false⟩

/-- Witness for C5 at a concrete succeeding engine: the call returns a
success object. -/
theorem success_failure_dichotomy_witness :
    ∃ r, (calcHash engineStatusZero paramsAbsent).outcome = .ok r :=
  (success_failure_dichotomy engineStatusZero paramsAbsent
    (fun _ => ⟨"e", rfl, by decide⟩)).1.mpr rfl

/-- C6 (amended). When none of the four `Module._free` calls of the cleanup
block throws, every arena allocation of the call — password, salt, output
hash and encoded buffer — is released exactly once before the result or
error propagates, leaving zero allocations outstanding, and this holds on
the success path, the non-zero-status path and the thrown-exception path
alike; moreover the cleanup is observationally silent: the call's outcome
does not depend on which frees fail. (The unamended claim fails when a free
throws: the swallowed exception aborts the rest of the cleanup block, so the
remaining allocations leak.) -/
theorem buffers_released_amended (B : EngineBehavior) (p : CalcParams)
    (hfree : ∀ x ∈ calcAddrs p, B.freeFails x = false) :
    (calcHash B p).freed = calcAddrs p
    ∧ (∀ x ∈ calcAddrs p, (calcHash B p).freed.count x = 1)
    ∧ (calcHash B p).arena.live = []
    ∧ ∀ g : Nat → Bool,
        (calcHash ⟨B.hashCall, B.hashOutput, B.encodedOutput, B.errorMessage, g⟩ p).outcome
          = (calcHash B p).outcome := by
  have haddr := calcAddrs_spec p
  have hfour := tryFree_four 1 ((allocateArrayBytes p.pass).length + 2)
    ((allocateArrayBytes p.pass).length + (allocateArrayBytes p.salt).length + 3)
    ((allocateArrayBytes p.pass).length + (allocateArrayBytes p.salt).length
      + jsOr p.hashLen 24 + 4)
    ((allocateArrayBytes p.pass).length + (allocateArrayBytes p.salt).length
      + jsOr p.hashLen 24 + 517)
    (by omega) (by omega) (by omega) B.freeFails (by rw [← haddr]; exact hfree)
  have hparts : (calcParts p).2 = ⟨(allocateArrayBytes p.pass).length
      + (allocateArrayBytes p.salt).length + jsOr p.hashLen 24 + 517,
      [(allocateArrayBytes p.pass).length + (allocateArrayBytes p.salt).length
        + jsOr p.hashLen 24 + 4,
       (allocateArrayBytes p.pass).length + (allocateArrayBytes p.salt).length + 3,
       (allocateArrayBytes p.pass).length + 2, 1]⟩ := by rw [calcParts_spec]
  have hfreed : (calcHash B p).freed = calcAddrs p := by
    rw [calcHash_freed, hparts, haddr, hfour]
  have hnodup : (calcAddrs p).Nodup := by
    rw [haddr]
    simp
    omega
  refine ⟨hfreed, ?_, ?_, ?_⟩
  · intro x hx
    rw [hfreed]
    exact List.count_eq_one_of_mem hnodup hx
  · rw [calcHash_arena, hparts, haddr, hfour]
  · intro g
    cases hc : B.hashCall (calcArgs p) <;> simp only [calcHash, hc] <;> split_ifs <;> rfl

/-- Witness for C6 (amended) with an engine whose frees never fail: all four
buffers are freed once and the arena ends empty. -/
theorem buffers_released_amended_witness :
    (calcHash engineStatusOne paramsAbsent).freed = calcAddrs paramsAbsent
    ∧ (calcHash engineStatusOne paramsAbsent).arena.live = [] :=
  ⟨(buffers_released_amended engineStatusOne paramsAbsent (fun x _ => rfl)).1,
   (buffers_released_amended engineStatusOne paramsAbsent (fun x _ => rfl)).2.2.1⟩

/-- Engine behaviour for the C6 counterexample: the hash call succeeds but
`Module._free` throws on the password buffer (address 1). -/
def engineFreeFails : EngineBehavior :=
  ⟨fun _ => .ok 0, fun _ => 0, fun _ => 0, fun _ => .ok "e", fun x => x == 1⟩

/-- Counterexample to C6 as stated: with a single failing free (an event the
claim itself contemplates and requires to be swallowed), the salt, hash and
encoded allocations are released zero times — not exactly once — and four
allocations remain outstanding after the call. -/
theorem buffers_released_counterexample :
    (calcHash engineFreeFails ⟨.bytes [7], .bytes [9], none, none, none, none, none⟩).freed = []
    ∧ (calcHash engineFreeFails
        ⟨.bytes [7], .bytes [9], none, none, none, none, none⟩).freed.count 3 = 0
    ∧ (calcHash engineFreeFails
        ⟨.bytes [7], .bytes [9], none, none, none, none, none⟩).arena.live.length = 4
    ∧ calcAddrs ⟨.bytes [7], .bytes [9], none, none, none, none, none⟩ = [1, 3, 5, 30] := by
  refine ⟨rfl, rfl, rfl, rfl⟩

/-- A two-character string whose second character is U+00E9, outside the
one-byte UTF-8 range. -/
def mismatchString : String := String.mk [Char.ofNat 97, Char.ofNat 233]

/-- Witness for C10 at a concrete non-ASCII password and salt: the code-unit
count is 2 but 3 bytes are written. -/
theorem string_length_mismatch_witness :
    (calcArgs ⟨.str mismatchString, .str mismatchString, none, none, none, none, none⟩).pwdlen
      ≠ (allocateArrayBytes (PassValue.str mismatchString)).length :=
  (string_length_mismatch ⟨.str mismatchString, .str mismatchString, none, none, none, none, none⟩
    mismatchString mismatchString rfl rfl
    ⟨Char.ofNat 233, by decide, by decide⟩).2.2.2.2.1

/-! Event-loop model of the loading coordination of `argon2Hash`.

The host is single-threaded and cooperative; every asynchronous continuation
of the source — a pending `argon2Hash` invocation, the `xhr` completion
handler, the settlement of the memoised `loadArgon2WrapperPromise`, the
engine's `postRun` callback and a `setTimeout` re-check — is one task in a
FIFO queue, processed one per step. Caller promises are tracked through
append-only logs of resolutions and rejections. -/

/-- Rejection message of `xhr.onerror`: the source concatenates the absent
`params.cacheKey`, which stringifies to `undefined`. -/
def fetchErrMsg : String := "Error loading wasm undefined"

/-- The reason string carried by a failed script load in the modelled
environment. -/
def scriptFailMsg : String := "script error"

/-- Rejection message used for a failed wrapper-script load. -/
def wrapperErrMsg (e : String) : String :=
  "Error loading argon2.min.js (WASM already loaded): " ++ e

/-- Rejection message of the fallback path for a failed asm script load. -/
def asmErrMsg (e : String) : String :=
  "Error loading argon2-asm.min.js: " ++ e

/-- One pending continuation on the wasm path. `call i` is an `argon2Hash`
body run for caller `i` (first run or `setTimeout` re-check alike);
`xhrLoad i` is the completion of the binary fetch started by caller `i`;
`wrapperDone i` is the settlement of the wrapper-script load started for
initiator `i`; `postRun i` is the engine's post-run callback installed by
initiator `i`; `resolveCalc i` is the deferred `resolve(calcHash(params))`
of caller `i`. -/
inductive LoaderTask where
  | call (i : Nat)
  | xhrLoad (i : Nat)
  | wrapperDone (i : Nat)
  | postRun (i : Nat)
  | resolveCalc (i : Nat)
deriving DecidableEq

/-- State of the memoised `loadArgon2WrapperPromise`. -/
inductive WrapperSt where
  | unset
  | pending
  | resolved
  | rejected (msg : String)
deriving DecidableEq

/-- Outcome of the external I/O in one scenario: whether the wasm binary
fetch succeeds and whether the wrapper-script load succeeds. -/
structure LoaderEnv where
  fetchOk : Bool
  wrapperOk : Bool
deriving DecidableEq

/-- Global state of the wasm-path coordination: `module` is whether
`global.Module` is set, `fullyLoaded` is `globalModuleIsFullyLoaded`,
`wrapper` is the memoised wrapper-load promise, `fetches` and `wrapperLoads`
count started binary fetches and wrapper-script loads, `waiters` are the
callers with callbacks registered on a pending wrapper promise (the flag
records whether a `then` continuation is registered besides the `catch`),
`resolvedLog` and `rejectedLog` record settled caller promises (most recent
first), `calcLog` records each `calcHash` invocation together with the
values of `module` and `fullyLoaded` at that moment, and `queue` is the
event-loop queue. -/
structure LoaderState where
  module : Bool
  fullyLoaded : Bool
  wrapper : WrapperSt
  fetches : Nat
  wrapperLoads : Nat
  waiters : List (Nat × Bool)
  resolvedLog : List Nat
  rejectedLog : List (Nat × String)
  calcLog : List (Nat × Bool × Bool)
  queue : List LoaderTask
deriving DecidableEq

/-- One event-loop step of the wasm path. The `call` branch mirrors the three
branches of `argon2Hash` after the backend decision: re-check later when
`Module` exists but is not flagged fully loaded; go through the memoised
wrapper promise when fully loaded; otherwise create `Module` synchronously
and start the binary fetch. `xhrLoad` mirrors `xhr.onload`/`xhr.onerror`:
on success it installs `postRun` for its initiator, starts the wrapper-script
load if not already started and registers the initiator's `catch`.
`wrapperDone` settles the wrapper promise: on success the loaded script runs
the engine, which fires `postRun`; on failure every registered `catch`
rejects. `postRun` flags the module fully loaded and resolves its initiator
with `calcHash`; `resolveCalc` resolves a caller with `calcHash`. -/
def loaderStep (E : LoaderEnv) (s : LoaderState) : LoaderState :=
  match s.queue with
  | [] => s
  | t :: q =>
    match t with
    | .call i =>
      if s.module && !s.fullyLoaded then
        { s with queue := q ++ [LoaderTask.call i] }
      else if s.module && s.fullyLoaded then
        match s.wrapper with
        | .unset =>
          { s with
              wrapper := .pending
              wrapperLoads := s.wrapperLoads + 1
              waiters := s.waiters ++ [(i, true)]
              queue := q ++ [LoaderTask.wrapperDone i] }
        | .pending =>
          { s with
              waiters := s.waiters ++ [(i, true)]
              queue := q }
        | .resolved =>
          { s with queue := q ++ [LoaderTask.resolveCalc i] }
        | .rejected m =>
          { s with
              rejectedLog := (i, wrapperErrMsg m) :: s.rejectedLog
              queue := q }
      else
        { s with
            module := true
            fetches := s.fetches + 1
            queue := q ++ [LoaderTask.xhrLoad i] }
    | .xhrLoad i =>
      if E.fetchOk then
        match s.wrapper with
        | .unset =>
          { s with
              wrapper := .pending
              wrapperLoads := s.wrapperLoads + 1
              waiters := s.waiters ++ [(i, false)]
              queue := q ++ [LoaderTask.wrapperDone i] }
        | .pending =>
          { s with
              waiters := s.waiters ++ [(i, false)]
              queue := q }
        | .resolved =>
          { s with queue := q }
        | .rejected m =>
          { s with
              rejectedLog := (i, wrapperErrMsg m) :: s.rejectedLog
              queue := q }
      else
        { s with
            rejectedLog := (i, fetchErrMsg) :: s.rejectedLog
            queue := q }
    | .wrapperDone i =>
      if E.wrapperOk then
        { s with
            wrapper := .resolved
            waiters := []
            queue := q ++ ((s.waiters.filter fun w => w.2).map fun w => LoaderTask.resolveCalc w.1)
              ++ [LoaderTask.postRun i] }
      else
        { s with
            wrapper := .rejected scriptFailMsg
            waiters := []
            rejectedLog :=
              (s.waiters.map fun w => (w.1, wrapperErrMsg scriptFailMsg)).reverse
                ++ s.rejectedLog
            queue := q }
    | .postRun i =>
      { s with
          fullyLoaded := true
          calcLog := (i, s.module, true) :: s.calcLog
          resolvedLog := i :: s.resolvedLog
          queue := q }
    | .resolveCalc i =>
      { s with
          calcLog := (i, s.module, s.fullyLoaded) :: s.calcLog
          resolvedLog := i :: s.resolvedLog
          queue := q }

/-- Initial state of the wasm path with `n` callers that all invoked
`hash()` before the engine is ready: fresh globals and one pending
`argon2Hash` body per caller. -/
def loaderInit (n : Nat) : LoaderState :=
  ⟨false, false, .unset, 0, 0, [], [], [], [], (List.range n).map .call⟩

/-- Whether caller `i`'s promise has settled (resolved or rejected). -/
def settledB (s : LoaderState) (i : Nat) : Bool :=
  (s.resolvedLog.any fun j => j == i) || (s.rejectedLog.any fun e => e.1 == i)

/-- One pending continuation on the fallback (asm.js) path: an `argon2Hash`
body run, or the settlement of that caller's own `loadScript` promise. -/
inductive FbTask where
  | call (i : Nat)
  | loaded (i : Nat)
deriving DecidableEq

/-- Global state of the fallback path. `module` is whether the executed asm
glue script has installed `global.Module`; `fullyLoaded` is the (never set)
`globalModuleIsFullyLoaded` flag; `scriptLoads` counts `loadScript`
invocations; the logs are as in `LoaderState`. -/
structure FbState where
  module : Bool
  fullyLoaded : Bool
  scriptLoads : Nat
  resolvedLog : List Nat
  rejectedLog : List (Nat × String)
  calcLog : List (Nat × Bool × Bool)
  queue : List FbTask
deriving DecidableEq

/-- One event-loop step of the fallback path: each `argon2Hash` call starts
its own `loadScript(params.asmFileUrl)` — there is no memoisation on this
path — and on settlement either runs `calcHash` directly (after the executed
glue script has installed `Module`, with no check of the fully-loaded flag)
or rejects with the wrapping message of the `catch` clause. -/
def fbStep (asmOk : Bool) (s : FbState) : FbState :=
  match s.queue with
  | [] => s
  | .call i :: q =>
    { s with
        scriptLoads := s.scriptLoads + 1
        queue := q ++ [FbTask.loaded i] }
  | .loaded i :: q =>
    if asmOk then
      { s with
          module := true
          calcLog := (i, true, s.fullyLoaded) :: s.calcLog
          resolvedLog := i :: s.resolvedLog
          queue := q }
    else
      { s with
          rejectedLog := (i, asmErrMsg scriptFailMsg) :: s.rejectedLog
          queue := q }

/-- Initial state of the fallback path with `n` callers arriving together. -/
def fbInit (n : Nat) : FbState :=
  ⟨false, false, 0, [], [], [], (List.range n).map .call⟩

/-- The scenario in which both the binary fetch and the wrapper load
succeed. -/
def envOk : LoaderEnv := ⟨true, true⟩

/-- The scenario in which the binary fetch fails. -/
def envFetchFail : LoaderEnv := ⟨false, true⟩

/-- The scenario in which the fetch succeeds but the wrapper-script load
fails. -/
def envLinkFail : LoaderEnv := ⟨true, false⟩

theorem loaderStep_nil (E : LoaderEnv) (s : LoaderState) (h : s.queue = []) :
    loaderStep E s = s := by
  simp only [loaderStep, h]

/-- Processing a block of `call` tasks while `Module` exists but is not yet
flagged fully loaded only rotates them to the back of the queue: each one
re-schedules itself 10 ms later. -/
theorem defer_block (E : LoaderEnv) (l : List Nat) :
    ∀ (s : LoaderState) (rest : List LoaderTask),
      s.module = true → s.fullyLoaded = false →
      s.queue = l.map LoaderTask.call ++ rest →
      (loaderStep E)^[l.length] s = { s with queue := rest ++ l.map LoaderTask.call } := by
  induction l with
  | nil =>
    intro s rest hm hf hq
    simp only [List.map_nil, List.nil_append] at hq
    simp only [List.length_nil, Function.iterate_zero_apply, List.map_nil, List.append_nil]
    rcases s with ⟨m, f, w, fc, wl, wa, rl, jl, cl, q⟩
    simp_all
  | cons i t ih =>
    intro s rest hm hf hq
    rw [List.length_cons, Function.iterate_succ_apply]
    have hstep : loaderStep E s =
        { s with queue := (t.map LoaderTask.call ++ rest) ++ [LoaderTask.call i] } := by
      simp only [loaderStep, hq, List.map_cons, List.cons_append, hm, hf]
      rfl
    rw [hstep]
    have h2 := ih { s with queue := (t.map LoaderTask.call ++ rest) ++ [LoaderTask.call i] }
      (rest ++ [LoaderTask.call i]) (by simp [hm]) (by simp [hf]) (by simp)
    rw [h2]
    simp

/-- Processing a block of `call` tasks when the module is fully loaded and
the wrapper promise has resolved schedules one deferred
`resolve(calcHash(params))` per caller. -/
theorem branch2_block (E : LoaderEnv) (l : List Nat) :
    ∀ (s : LoaderState) (rest : List LoaderTask),
      s.module = true → s.fullyLoaded = true → s.wrapper = .resolved →
      s.queue = l.map LoaderTask.call ++ rest →
      (loaderStep E)^[l.length] s =
        { s with queue := rest ++ l.map LoaderTask.resolveCalc } := by
  induction l with
  | nil =>
    intro s rest hm hf hw hq
    simp only [List.map_nil, List.nil_append] at hq
    simp only [List.length_nil, Function.iterate_zero_apply, List.map_nil, List.append_nil]
    rcases s with ⟨m, f, w, fc, wl, wa, rl, jl, cl, q⟩
    simp_all
  | cons i t ih =>
    intro s rest hm hf hw hq
    rw [List.length_cons, Function.iterate_succ_apply]
    have hstep : loaderStep E s =
        { s with queue := (t.map LoaderTask.call ++ rest) ++ [LoaderTask.resolveCalc i] } := by
      simp only [loaderStep, hq, List.map_cons, List.cons_append, hm, hf, hw]
      rfl
    rw [hstep]
    have h2 := ih { s with queue := (t.map LoaderTask.call ++ rest) ++ [LoaderTask.resolveCalc i] }
      (rest ++ [LoaderTask.resolveCalc i]) (by simp [hm]) (by simp [hf]) (by simp [hw]) (by simp)
    rw [h2]
    simp

/-- Processing a block of deferred `resolve(calcHash(params))` tasks resolves
each caller in order, recording one `calcHash` invocation per caller at the
current `Module` flags. -/
theorem resolve_block (E : LoaderEnv) (l : List Nat) :
    ∀ s : LoaderState, s.queue = l.map LoaderTask.resolveCalc →
      (loaderStep E)^[l.length] s =
        { s with
            resolvedLog := l.reverse ++ s.resolvedLog
            calcLog := (l.map fun i => (i, s.module, s.fullyLoaded)).reverse ++ s.calcLog
            queue := [] } := by
  induction l with
  | nil =>
    intro s hq
    simp only [List.map_nil] at hq
    simp only [List.length_nil, Function.iterate_zero_apply, List.reverse_nil, List.map_nil,
      List.nil_append]
    rcases s with ⟨m, f, w, fc, wl, wa, rl, jl, cl, q⟩
    simp_all
  | cons i t ih =>
    intro s hq
    rw [List.length_cons, Function.iterate_succ_apply]
    have hstep : loaderStep E s =
        { s with
            calcLog := (i, s.module, s.fullyLoaded) :: s.calcLog
            resolvedLog := i :: s.resolvedLog
            queue := t.map LoaderTask.resolveCalc } := by
      simp only [loaderStep, hq, List.map_cons]
    rw [hstep]
    have h2 := ih
      { s with
          calcLog := (i, s.module, s.fullyLoaded) :: s.calcLog
          resolvedLog := i :: s.resolvedLog
          queue := t.map LoaderTask.resolveCalc } (by simp)
    rw [h2]
    simp

/-- A state whose queue holds only `call` tasks with `Module` present and the
fully-loaded flag unset never leaves that shape: the re-check loop spins
without settling anything. -/
theorem stuck_calls (E : LoaderEnv) :
    ∀ (k : Nat) (s : LoaderState) (l : List Nat),
      s.module = true → s.fullyLoaded = false → s.queue = l.map LoaderTask.call →
      ∃ l2 : List Nat, (loaderStep E)^[k] s = { s with queue := l2.map LoaderTask.call } := by
  intro k
  induction k with
  | zero =>
    intro s l hm hf hq
    exact ⟨l, by rcases s with ⟨m, f, w, fc, wl, wa, rl, jl, cl, q⟩; simp_all⟩
  | succ k ih =>
    intro s l hm hf hq
    rw [Function.iterate_succ_apply]
    cases l with
    | nil =>
      rw [loaderStep_nil E s (by simp [hq])]
      exact ih s [] hm hf (by simp [hq])
    | cons i t =>
      have hstep : loaderStep E s =
          { s with queue := t.map LoaderTask.call ++ [LoaderTask.call i] } := by
        simp only [loaderStep, hq, List.map_cons, hm, hf]
        rfl
      rw [hstep]
      obtain ⟨l2, h2⟩ := ih { s with queue := t.map LoaderTask.call ++ [LoaderTask.call i] }
        (t ++ [i]) (by simp [hm]) (by simp [hf]) (by simp)
      exact ⟨l2, h2.trans (by rfl)⟩

/-- One step only extends the settlement logs. -/
theorem step_log_subset (E : LoaderEnv) (s : LoaderState) :
    s.resolvedLog ⊆ (loaderStep E s).resolvedLog
    ∧ s.rejectedLog ⊆ (loaderStep E s).rejectedLog := by
  rcases hq : s.queue with _ | ⟨t, q⟩
  · rw [loaderStep_nil E s hq]
    exact ⟨List.Subset.refl _, List.Subset.refl _⟩
  · cases t <;> simp only [loaderStep, hq] <;> constructor <;> (repeat' split) <;>
      first
      | exact List.Subset.refl _
      | exact List.subset_cons_self _ _
      | exact List.subset_append_right _ _

/-- A settled promise never becomes pending again: the logs are
append-only. -/
theorem step_settled_mono (E : LoaderEnv) (s : LoaderState) (i : Nat)
    (h : settledB s i = true) : settledB (loaderStep E s) i = true := by
  obtain ⟨h1, h2⟩ := step_log_subset E s
  simp only [settledB, Bool.or_eq_true, List.any_eq_true] at h ⊢
  rcases h with ⟨j, hj, hji⟩ | ⟨e, he, hei⟩
  · exact Or.inl ⟨j, h1 hj, hji⟩
  · exact Or.inr ⟨e, h2 he, hei⟩

theorem iterate_settled_mono (E : LoaderEnv) (k : Nat) :
    ∀ (s : LoaderState) (i : Nat), settledB s i = true →
      settledB ((loaderStep E)^[k] s) i = true := by
  induction k with
  | zero => intro s i h; simpa
  | succ k ih =>
    intro s i h
    rw [Function.iterate_succ_apply]
    exact ih _ _ (step_settled_mono E s i h)

/-- Full run of the wasm path with `n + 1` callers arriving before the
engine is ready, all I/O succeeding: caller 0 creates `Module` and starts the
single fetch, the others spin in the re-check loop; the fetch completion
starts the single wrapper load, whose execution fires `postRun`; caller 0
resolves there and the remaining callers resolve through the memoised
resolved wrapper promise. Every `calcHash` invocation happens with the
fully-loaded flag set. -/
theorem loader_success (n : Nat) :
    (loaderStep envOk)^[5 * n + 5] (loaderInit (n + 1)) =
      ⟨true, true, .resolved, 1, 1, [],
        (List.range' 1 n).reverse ++ [0], [],
        ((List.range' 1 n).map fun i => (i, true, true)).reverse ++ [(0, true, true)],
        []⟩ := by
  have hq0 : List.range (n + 1) = 0 :: List.range' 1 n := by
    rw [List.range_eq_range', List.range'_succ]
  have e1 : loaderStep envOk (loaderInit (n + 1)) =
      (⟨true, false, .unset, 1, 0, [], [], [], [],
        (List.range' 1 n).map LoaderTask.call ++ [LoaderTask.xhrLoad 0]⟩ : LoaderState) := by
    simp only [loaderInit, hq0, List.map_cons]
    rfl
  have e2 : (loaderStep envOk)^[n]
      (⟨true, false, .unset, 1, 0, [], [], [], [],
        (List.range' 1 n).map LoaderTask.call ++ [LoaderTask.xhrLoad 0]⟩ : LoaderState) =
      (⟨true, false, .unset, 1, 0, [], [], [], [],
        LoaderTask.xhrLoad 0 :: (List.range' 1 n).map LoaderTask.call⟩ : LoaderState) := by
    have h := defer_block envOk (List.range' 1 n)
      ⟨true, false, .unset, 1, 0, [], [], [], [],
        (List.range' 1 n).map LoaderTask.call ++ [LoaderTask.xhrLoad 0]⟩
      [LoaderTask.xhrLoad 0] rfl rfl rfl
    simp only [List.length_range'] at h
    exact h
  have e3 : loaderStep envOk
      (⟨true, false, .unset, 1, 0, [], [], [], [],
        LoaderTask.xhrLoad 0 :: (List.range' 1 n).map LoaderTask.call⟩ : LoaderState) =
      (⟨true, false, .pending, 1, 1, [(0, false)], [], [], [],
        (List.range' 1 n).map LoaderTask.call ++ [LoaderTask.wrapperDone 0]⟩ : LoaderState) :=
    rfl
  have e4 : (loaderStep envOk)^[n]
      (⟨true, false, .pending, 1, 1, [(0, false)], [], [], [],
        (List.range' 1 n).map LoaderTask.call ++ [LoaderTask.wrapperDone 0]⟩ : LoaderState) =
      (⟨true, false, .pending, 1, 1, [(0, false)], [], [], [],
        LoaderTask.wrapperDone 0 :: (List.range' 1 n).map LoaderTask.call⟩ : LoaderState) := by
    have h := defer_block envOk (List.range' 1 n)
      ⟨true, false, .pending, 1, 1, [(0, false)], [], [], [],
        (List.range' 1 n).map LoaderTask.call ++ [LoaderTask.wrapperDone 0]⟩
      [LoaderTask.wrapperDone 0] rfl rfl rfl
    simp only [List.length_range'] at h
    exact h
  have e5 : loaderStep envOk
      (⟨true, false, .pending, 1, 1, [(0, false)], [], [], [],
        LoaderTask.wrapperDone 0 :: (List.range' 1 n).map LoaderTask.call⟩ : LoaderState) =
      (⟨true, false, .resolved, 1, 1, [], [], [], [],
        (List.range' 1 n).map LoaderTask.call ++ [LoaderTask.postRun 0]⟩ : LoaderState) := by
    simp [loaderStep, envOk]
  have e6 : (loaderStep envOk)^[n]
      (⟨true, false, .resolved, 1, 1, [], [], [], [],
        (List.range' 1 n).map LoaderTask.call ++ [LoaderTask.postRun 0]⟩ : LoaderState) =
      (⟨true, false, .resolved, 1, 1, [], [], [], [],
        LoaderTask.postRun 0 :: (List.range' 1 n).map LoaderTask.call⟩ : LoaderState) := by
    have h := defer_block envOk (List.range' 1 n)
      ⟨true, false, .resolved, 1, 1, [], [], [], [],
        (List.range' 1 n).map LoaderTask.call ++ [LoaderTask.postRun 0]⟩
      [LoaderTask.postRun 0] rfl rfl rfl
    simp only [List.length_range'] at h
    exact h
  have e7 : loaderStep envOk
      (⟨true, false, .resolved, 1, 1, [], [], [], [],
        LoaderTask.postRun 0 :: (List.range' 1 n).map LoaderTask.call⟩ : LoaderState) =
      (⟨true, true, .resolved, 1, 1, [], [0], [], [(0, true, true)],
        (List.range' 1 n).map LoaderTask.call⟩ : LoaderState) :=
    rfl
  have e8 : (loaderStep envOk)^[n]
      (⟨true, true, .resolved, 1, 1, [], [0], [], [(0, true, true)],
        (List.range' 1 n).map LoaderTask.call⟩ : LoaderState) =
      (⟨true, true, .resolved, 1, 1, [], [0], [], [(0, true, true)],
        (List.range' 1 n).map LoaderTask.resolveCalc⟩ : LoaderState) := by
    have h := branch2_block envOk (List.range' 1 n)
      ⟨true, true, .resolved, 1, 1, [], [0], [], [(0, true, true)],
        (List.range' 1 n).map LoaderTask.call⟩
      [] rfl rfl rfl (by simp)
    simp only [List.length_range'] at h
    exact h
  have e9 : (loaderStep envOk)^[n]
      (⟨true, true, .resolved, 1, 1, [], [0], [], [(0, true, true)],
        (List.range' 1 n).map LoaderTask.resolveCalc⟩ : LoaderState) =
      (⟨true, true, .resolved, 1, 1, [],
        (List.range' 1 n).reverse ++ [0], [],
        ((List.range' 1 n).map fun i => (i, true, true)).reverse ++ [(0, true, true)],
        []⟩ : LoaderState) := by
    have h := resolve_block envOk (List.range' 1 n)
      ⟨true, true, .resolved, 1, 1, [], [0], [], [(0, true, true)],
        (List.range' 1 n).map LoaderTask.resolveCalc⟩ rfl
    simp only [List.length_range'] at h
    exact h
  calc (loaderStep envOk)^[5 * n + 5] (loaderInit (n + 1))
      = (loaderStep envOk)^[5 * n + 4] (loaderStep envOk (loaderInit (n + 1))) := by
        rw [show 5 * n + 5 = (5 * n + 4) + 1 from by ring, Function.iterate_succ_apply]
    _ = (loaderStep envOk)^[4 * n + 4] ((loaderStep envOk)^[n]
          (⟨true, false, .unset, 1, 0, [], [], [], [],
            (List.range' 1 n).map LoaderTask.call ++ [LoaderTask.xhrLoad 0]⟩ : LoaderState)) := by
        rw [e1, show 5 * n + 4 = (4 * n + 4) + n from by ring, Function.iterate_add_apply]
    _ = (loaderStep envOk)^[4 * n + 3] (loaderStep envOk
          (⟨true, false, .unset, 1, 0, [], [], [], [],
            LoaderTask.xhrLoad 0 :: (List.range' 1 n).map LoaderTask.call⟩ : LoaderState)) := by
        rw [e2, show 4 * n + 4 = (4 * n + 3) + 1 from by ring, Function.iterate_succ_apply]
    _ = (loaderStep envOk)^[3 * n + 3] ((loaderStep envOk)^[n]
          (⟨true, false, .pending, 1, 1, [(0, false)], [], [], [],
            (List.range' 1 n).map LoaderTask.call ++ [LoaderTask.wrapperDone 0]⟩ : LoaderState)) := by
        rw [e3, show 4 * n + 3 = (3 * n + 3) + n from by ring, Function.iterate_add_apply]
    _ = (loaderStep envOk)^[3 * n + 2] (loaderStep envOk
          (⟨true, false, .pending, 1, 1, [(0, false)], [], [], [],
            LoaderTask.wrapperDone 0 :: (List.range' 1 n).map LoaderTask.call⟩ : LoaderState)) := by
        rw [e4, show 3 * n + 3 = (3 * n + 2) + 1 from by ring, Function.iterate_succ_apply]
    _ = (loaderStep envOk)^[2 * n + 2] ((loaderStep envOk)^[n]
          (⟨true, false, .resolved, 1, 1, [], [], [], [],
            (List.range' 1 n).map LoaderTask.call ++ [LoaderTask.postRun 0]⟩ : LoaderState)) := by
        rw [e5, show 3 * n + 2 = (2 * n + 2) + n from by ring, Function.iterate_add_apply]
    _ = (loaderStep envOk)^[2 * n + 1] (loaderStep envOk
          (⟨true, false, .resolved, 1, 1, [], [], [], [],
            LoaderTask.postRun 0 :: (List.range' 1 n).map LoaderTask.call⟩ : LoaderState)) := by
        rw [e6, show 2 * n + 2 = (2 * n + 1) + 1 from by ring, Function.iterate_succ_apply]
    _ = (loaderStep envOk)^[n + 1] ((loaderStep envOk)^[n]
          (⟨true, true, .resolved, 1, 1, [], [0], [], [(0, true, true)],
            (List.range' 1 n).map LoaderTask.call⟩ : LoaderState)) := by
        rw [e7, show 2 * n + 1 = (n + 1) + n from by ring, Function.iterate_add_apply]
    _ = (loaderStep envOk)^[1] ((loaderStep envOk)^[n]
          (⟨true, true, .resolved, 1, 1, [], [0], [], [(0, true, true)],
            (List.range' 1 n).map LoaderTask.resolveCalc⟩ : LoaderState)) := by
        rw [e8, show n + 1 = 1 + n from by ring, Function.iterate_add_apply]
    _ = (⟨true, true, .resolved, 1, 1, [],
          (List.range' 1 n).reverse ++ [0], [],
          ((List.range' 1 n).map fun i => (i, true, true)).reverse ++ [(0, true, true)],
          []⟩ : LoaderState) := by
        rw [e9, Function.iterate_one]
        exact loaderStep_nil envOk _ rfl

/-- Full run of the wasm path with `n + 1` callers when the binary fetch
fails: caller 0 is rejected by `xhr.onerror`; the other callers are left
spinning in the re-check loop. -/
theorem loader_fetchfail (n : Nat) :
    (loaderStep envFetchFail)^[n + 2] (loaderInit (n + 1)) =
      ⟨true, false, .unset, 1, 0, [], [], [(0, fetchErrMsg)], [],
        (List.range' 1 n).map LoaderTask.call⟩ := by
  have hq0 : List.range (n + 1) = 0 :: List.range' 1 n := by
    rw [List.range_eq_range', List.range'_succ]
  have e1 : loaderStep envFetchFail (loaderInit (n + 1)) =
      (⟨true, false, .unset, 1, 0, [], [], [], [],
        (List.range' 1 n).map LoaderTask.call ++ [LoaderTask.xhrLoad 0]⟩ : LoaderState) := by
    simp only [loaderInit, hq0, List.map_cons]
    rfl
  have e2 : (loaderStep envFetchFail)^[n]
      (⟨true, false, .unset, 1, 0, [], [], [], [],
        (List.range' 1 n).map LoaderTask.call ++ [LoaderTask.xhrLoad 0]⟩ : LoaderState) =
      (⟨true, false, .unset, 1, 0, [], [], [], [],
        LoaderTask.xhrLoad 0 :: (List.range' 1 n).map LoaderTask.call⟩ : LoaderState) := by
    have h := defer_block envFetchFail (List.range' 1 n)
      ⟨true, false, .unset, 1, 0, [], [], [], [],
        (List.range' 1 n).map LoaderTask.call ++ [LoaderTask.xhrLoad 0]⟩
      [LoaderTask.xhrLoad 0] rfl rfl rfl
    simp only [List.length_range'] at h
    exact h
  calc (loaderStep envFetchFail)^[n + 2] (loaderInit (n + 1))
      = (loaderStep envFetchFail)^[n + 1] (loaderStep envFetchFail (loaderInit (n + 1))) := by
        rw [Function.iterate_succ_apply]
    _ = (loaderStep envFetchFail)^[1] ((loaderStep envFetchFail)^[n]
          (⟨true, false, .unset, 1, 0, [], [], [], [],
            (List.range' 1 n).map LoaderTask.call ++ [LoaderTask.xhrLoad 0]⟩ : LoaderState)) := by
        rw [e1, show n + 1 = 1 + n from by ring, Function.iterate_add_apply]
    _ = (⟨true, false, .unset, 1, 0, [], [], [(0, fetchErrMsg)], [],
          (List.range' 1 n).map LoaderTask.call⟩ : LoaderState) := by
        rw [e2, Function.iterate_one]
        rfl

/-- After a failed binary fetch, no caller other than the initiator ever
settles, however long the event loop runs: they spin in the re-check loop
forever. -/
theorem fetchfail_unsettled (n j : Nat) (h1 : 1 ≤ j) (fuel : Nat) :
    settledB ((loaderStep envFetchFail)^[fuel] (loaderInit (n + 1))) j = false := by
  by_contra hset
  rw [Bool.not_eq_false] at hset
  have hfk : fuel ≤ max fuel (n + 2) := le_max_left _ _
  have h2k : n + 2 ≤ max fuel (n + 2) := le_max_right _ _
  have hsk : settledB ((loaderStep envFetchFail)^[max fuel (n + 2)] (loaderInit (n + 1))) j
      = true := by
    rw [show max fuel (n + 2) = (max fuel (n + 2) - fuel) + fuel from by omega,
      Function.iterate_add_apply]
    exact iterate_settled_mono _ _ _ _ hset
  rw [show max fuel (n + 2) = (max fuel (n + 2) - (n + 2)) + (n + 2) from by omega,
    Function.iterate_add_apply, loader_fetchfail n] at hsk
  obtain ⟨l2, hl2⟩ := stuck_calls envFetchFail (max fuel (n + 2) - (n + 2))
    ⟨true, false, .unset, 1, 0, [], [], [(0, fetchErrMsg)], [],
      (List.range' 1 n).map LoaderTask.call⟩
    (List.range' 1 n) rfl rfl rfl
  rw [hl2] at hsk
  simp [settledB] at hsk
  omega

/-- After a failed wrapper-script load with two concurrent callers, the
non-initiating caller never settles. -/
theorem linkfail_unsettled (fuel : Nat) :
    settledB ((loaderStep envLinkFail)^[fuel] (loaderInit 2)) 1 = false := by
  have hrun : (loaderStep envLinkFail)^[5] (loaderInit 2) =
      ⟨true, false, .rejected scriptFailMsg, 1, 1, [], [],
        [(0, wrapperErrMsg scriptFailMsg)], [], [LoaderTask.call 1]⟩ := by
    decide
  by_contra hset
  rw [Bool.not_eq_false] at hset
  have hsk : settledB ((loaderStep envLinkFail)^[max fuel 5] (loaderInit 2)) 1 = true := by
    rw [show max fuel 5 = (max fuel 5 - fuel) + fuel from by omega, Function.iterate_add_apply]
    exact iterate_settled_mono _ _ _ _ hset
  rw [show max fuel 5 = (max fuel 5 - 5) + 5 from by omega,
    Function.iterate_add_apply, hrun] at hsk
  obtain ⟨l2, hl2⟩ := stuck_calls envLinkFail (max fuel 5 - 5)
    ⟨true, false, .rejected scriptFailMsg, 1, 1, [], [],
      [(0, wrapperErrMsg scriptFailMsg)], [], [LoaderTask.call 1]⟩
    [1] rfl rfl rfl
  rw [hl2] at hsk
  simp [settledB] at hsk

/-- On the fallback path, a block of `call` tasks starts one `loadScript`
per caller. -/
theorem fb_call_block (b : Bool) (l : List Nat) :
    ∀ (s : FbState) (rest : List FbTask),
      s.queue = l.map FbTask.call ++ rest →
      (fbStep b)^[l.length] s =
        { s with
            scriptLoads := s.scriptLoads + l.length
            queue := rest ++ l.map FbTask.loaded } := by
  induction l with
  | nil =>
    intro s rest hq
    simp only [List.map_nil, List.nil_append] at hq
    simp only [List.length_nil, Function.iterate_zero_apply, List.map_nil, List.append_nil,
      Nat.add_zero]
    rcases s with ⟨m, f, sl, rl, jl, cl, q⟩
    simp_all
  | cons i t ih =>
    intro s rest hq
    rw [List.length_cons, Function.iterate_succ_apply]
    rcases s with ⟨m, f, sl, rl, jl, cl, q⟩
    simp only [List.map_cons, List.cons_append] at hq
    subst hq
    have hstep : fbStep b
        (⟨m, f, sl, rl, jl, cl,
          (FbTask.call i :: (t.map FbTask.call ++ rest) : List FbTask)⟩ : FbState) =
        (⟨m, f, sl + 1, rl, jl, cl,
          (t.map FbTask.call ++ rest) ++ [FbTask.loaded i]⟩ : FbState) :=
      rfl
    rw [hstep]
    have h2 := ih ⟨m, f, sl + 1, rl, jl, cl, (t.map FbTask.call ++ rest) ++ [FbTask.loaded i]⟩
      (rest ++ [FbTask.loaded i]) (by simp)
    rw [h2]
    simp [List.append_assoc]
    omega

/-- On the fallback path with `Module` already installed by a previous glue
run, a block of `loaded` tasks invokes `calcHash` for each caller — recording
the fully-loaded flag still unset — and resolves it. -/
theorem fb_loaded_block (l : List Nat) :
    ∀ s : FbState, s.module = true → s.fullyLoaded = false →
      s.queue = l.map FbTask.loaded →
      (fbStep true)^[l.length] s =
        { s with
            resolvedLog := l.reverse ++ s.resolvedLog
            calcLog := (l.map fun i => (i, true, false)).reverse ++ s.calcLog
            queue := [] } := by
  induction l with
  | nil =>
    intro s hm hf hq
    simp only [List.map_nil] at hq
    simp only [List.length_nil, Function.iterate_zero_apply, List.reverse_nil, List.map_nil,
      List.nil_append]
    rcases s with ⟨m, f, sl, rl, jl, cl, q⟩
    simp_all
  | cons i t ih =>
    intro s hm hf hq
    rw [List.length_cons, Function.iterate_succ_apply]
    rcases s with ⟨m, f, sl, rl, jl, cl, q⟩
    simp only at hm hf hq
    subst hm hf hq
    have hstep : fbStep true
        (⟨true, false, sl, rl, jl, cl, (FbTask.loaded i :: t.map FbTask.loaded : List FbTask)⟩ : FbState) =
        (⟨true, false, sl, i :: rl, jl, (i, true, false) :: cl, t.map FbTask.loaded⟩ : FbState) :=
      rfl
    rw [List.map_cons, hstep]
    have h2 := ih ⟨true, false, sl, i :: rl, jl, (i, true, false) :: cl, t.map FbTask.loaded⟩
      rfl rfl rfl
    rw [h2]
    simp

/-- Full run of the fallback path with `n + 1` concurrent callers and a
succeeding script load: one `loadScript` per caller (`n + 1` in total), and
every caller resolves through a `calcHash` invocation made while the
fully-loaded flag is still unset. -/
theorem fb_success (n : Nat) :
    (fbStep true)^[2 * n + 2] (fbInit (n + 1)) =
      ⟨true, false, n + 1,
        (List.range' 1 n).reverse ++ [0], [],
        ((List.range' 1 n).map fun i => (i, true, false)).reverse ++ [(0, true, false)],
        []⟩ := by
  have hq0 : List.range (n + 1) = 0 :: List.range' 1 n := by
    rw [List.range_eq_range', List.range'_succ]
  have e1 : (fbStep true)^[n + 1] (fbInit (n + 1)) =
      (⟨false, false, n + 1, [], [], [],
        (List.range (n + 1)).map FbTask.loaded⟩ : FbState) := by
    have h := fb_call_block true (List.range (n + 1)) (fbInit (n + 1)) [] (by simp [fbInit])
    simp only [List.length_range, List.nil_append] at h
    rw [h]
    simp [fbInit]
  have e2 : fbStep true
      (⟨false, false, n + 1, [], [], [],
        (List.range (n + 1)).map FbTask.loaded⟩ : FbState) =
      (⟨true, false, n + 1, [0], [], [(0, true, false)],
        (List.range' 1 n).map FbTask.loaded⟩ : FbState) := by
    rw [hq0]
    rfl
  have e3 : (fbStep true)^[n]
      (⟨true, false, n + 1, [0], [], [(0, true, false)],
        (List.range' 1 n).map FbTask.loaded⟩ : FbState) =
      (⟨true, false, n + 1,
        (List.range' 1 n).reverse ++ [0], [],
        ((List.range' 1 n).map fun i => (i, true, false)).reverse ++ [(0, true, false)],
        []⟩ : FbState) := by
    have h := fb_loaded_block (List.range' 1 n)
      ⟨true, false, n + 1, [0], [], [(0, true, false)],
        (List.range' 1 n).map FbTask.loaded⟩ rfl rfl rfl
    simp only [List.length_range'] at h
    exact h
  calc (fbStep true)^[2 * n + 2] (fbInit (n + 1))
      = (fbStep true)^[n + 1] ((fbStep true)^[n + 1] (fbInit (n + 1))) := by
        rw [show 2 * n + 2 = (n + 1) + (n + 1) from by ring, Function.iterate_add_apply]
    _ = (fbStep true)^[n] (fbStep true
          (⟨false, false, n + 1, [], [], [],
            (List.range (n + 1)).map FbTask.loaded⟩ : FbState)) := by
        rw [e1, show n + 1 = n + 1 from rfl, Function.iterate_succ_apply]
    _ = (⟨true, false, n + 1,
          (List.range' 1 n).reverse ++ [0], [],
          ((List.range' 1 n).map fun i => (i, true, false)).reverse ++ [(0, true, false)],
          []⟩ : FbState) := by
        rw [e2, e3]

/-- C1 (amended). On the primary wasm path, for any N ≥ 2 callers invoking
`hash()` concurrently before the engine is ready, exactly one binary fetch
and one wrapper-script load occur in total and all N calls resolve with no
rejection. On the portable fallback path the deduplication does not hold:
each of the N calls performs its own script load (N loads in total), though
all N calls still resolve. -/
theorem single_fetch_amended (N : Nat) (hN : 2 ≤ N) :
    ((loaderStep envOk)^[5 * N] (loaderInit N)).fetches = 1
    ∧ ((loaderStep envOk)^[5 * N] (loaderInit N)).wrapperLoads = 1
    ∧ (∀ i, i < N → i ∈ ((loaderStep envOk)^[5 * N] (loaderInit N)).resolvedLog)
    ∧ ((loaderStep envOk)^[5 * N] (loaderInit N)).rejectedLog = []
    ∧ ((fbStep true)^[2 * N] (fbInit N)).scriptLoads = N
    ∧ (∀ i, i < N → i ∈ ((fbStep true)^[2 * N] (fbInit N)).resolvedLog) := by
  obtain ⟨n, rfl⟩ : ∃ n, N = n + 1 := ⟨N - 1, by omega⟩
  rw [show 5 * (n + 1) = 5 * n + 5 from by ring, show 2 * (n + 1) = 2 * n + 2 from by ring,
    loader_success n, fb_success n]
  refine ⟨rfl, rfl, ?_, rfl, rfl, ?_⟩
  · intro i hi
    simp only [List.mem_append, List.mem_reverse, List.mem_range'_1, List.mem_singleton]
    omega
  · intro i hi
    simp only [List.mem_append, List.mem_reverse, List.mem_range'_1, List.mem_singleton]
    omega

/-- Witness for C1 (amended) at N = 2: one fetch in total. -/
theorem single_fetch_amended_witness :
    ((loaderStep envOk)^[5 * 2] (loaderInit 2)).fetches = 1 :=
  (single_fetch_amended 2 (by omega)).1

/-- Counterexample to C1 as stated: on the fallback path, two concurrent
callers perform two script loads, not one, even though the run completes and
both resolve. -/
theorem single_fetch_counterexample :
    ((fbStep true)^[4] (fbInit 2)).scriptLoads = 2
    ∧ ((fbStep true)^[4] (fbInit 2)).queue = []
    ∧ ((fbStep true)^[4] (fbInit 2)).resolvedLog = [1, 0] := by
  decide

/-- C2 (amended). On failure of the fetch phase, only the initiating caller's
promise is rejected (with the phase-identifying `xhr.onerror` message); every
other concurrent caller never settles, for any amount of event-loop fuel,
because the re-check loop spins on the never-set fully-loaded flag. The same
happens on failure of the wrapper link phase (shown at N = 2), where the
initiator is rejected with the phase-identifying wrapper message. On the
fallback path a load failure rejects every caller (each has its own load). -/
theorem failure_rejection_amended (n j : Nat) (hj1 : 1 ≤ j) :
    ((loaderStep envFetchFail)^[n + 2] (loaderInit (n + 1))).rejectedLog = [(0, fetchErrMsg)]
    ∧ (∀ fuel, settledB ((loaderStep envFetchFail)^[fuel] (loaderInit (n + 1))) j = false)
    ∧ ((loaderStep envLinkFail)^[5] (loaderInit 2)).rejectedLog
        = [(0, wrapperErrMsg scriptFailMsg)]
    ∧ (∀ fuel, settledB ((loaderStep envLinkFail)^[fuel] (loaderInit 2)) 1 = false)
    ∧ ((fbStep false)^[4] (fbInit 2)).rejectedLog
        = [(1, asmErrMsg scriptFailMsg), (0, asmErrMsg scriptFailMsg)]
    ∧ ((fbStep false)^[4] (fbInit 2)).resolvedLog = [] := by
  refine ⟨?_, fun fuel => fetchfail_unsettled n j hj1 fuel, by decide,
    fun fuel => linkfail_unsettled fuel, by decide, by decide⟩
  rw [loader_fetchfail n]

/-- Witness for C2 (amended) at two concurrent callers and 100 steps of
fuel: the second caller is still pending. -/
theorem failure_rejection_amended_witness :
    settledB ((loaderStep envFetchFail)^[100] (loaderInit 2)) 1 = false :=
  (failure_rejection_amended 1 1 (le_refl 1)).2.1 100

/-- Counterexample to C2 as stated: with two concurrent callers and a failing
fetch, after the failure caller 1 is still pending and the machine state is a
fixpoint of the event-loop step — the re-check task re-queues itself
unchanged — so caller 1 stays pending after every further step and never
observes a rejection. -/
theorem eventual_settlement_counterexample :
    settledB ((loaderStep envFetchFail)^[3] (loaderInit 2)) 1 = false
    ∧ loaderStep envFetchFail ((loaderStep envFetchFail)^[3] (loaderInit 2))
        = (loaderStep envFetchFail)^[3] (loaderInit 2)
    ∧ ((loaderStep envFetchFail)^[3] (loaderInit 2)).rejectedLog = [(0, fetchErrMsg)] := by
  decide

/-- C3 (amended). On the primary wasm path, every `calcHash` invocation in a
full successful run with any number of concurrent callers happens with the
fully-loaded flag set: calls that observe `Module` present but not flagged
ready defer and re-check instead of proceeding. (On the fallback path the
wrapper invokes `calcHash` directly after its own script load with the flag
still unset, so the claim fails there.) -/
theorem no_early_calc_amended (N : Nat) (hN : 1 ≤ N) :
    ∀ e ∈ ((loaderStep envOk)^[5 * N] (loaderInit N)).calcLog, e.2.2 = true := by
  obtain ⟨n, rfl⟩ : ∃ n, N = n + 1 := ⟨N - 1, by omega⟩
  rw [show 5 * (n + 1) = 5 * n + 5 from by ring, loader_success n]
  intro e he
  simp only [List.mem_append, List.mem_reverse, List.mem_map, List.mem_singleton] at he
  rcases he with ⟨i, hi, rfl⟩ | rfl <;> rfl

/-- Witness for C3 (amended) at one caller: the single recorded `calcHash`
invocation carries the set flag. -/
theorem no_early_calc_amended_witness :
    ((0, true, true) : Nat × Bool × Bool).2.2 = true :=
  no_early_calc_amended 1 (le_refl 1) (0, true, true) (by decide)

/-- Counterexample to C3 as stated: on the fallback path with a single
caller, `calcHash` is invoked with the engine object present but the
fully-loaded flag unset. -/
theorem no_early_calc_counterexample :
    ((fbStep true)^[2] (fbInit 1)).calcLog = [(0, true, false)]
    ∧ ((fbStep true)^[2] (fbInit 1)).resolvedLog = [0] := by
  decide

/-! End-to-end surfacing of a `calcHash` failure through the `hash()`
promise. The machines above treat the `calcHash` invocation as returning;
the variants below model the run in which it throws (as it does for a
non-zero engine status), following the source's promise plumbing. -/

/-- JS default stringification of a plain object, as produced by the string
concatenation in the fallback catch clause when the caught value is the
thrown `{ message, code }` result object. -/
def jsObjectString : String := "[object Object]"

/-- The wasm-path event-loop step when the `calcHash` invocation throws
(`calcOk = false`): identical to `loaderStep` except at the two invocation
sites. In `postRun` the flag is set first, then `resolve(calcHash(params))`
throws before `resolve` runs, so the exception escapes the callback and the
caller's promise is left untouched; a deferred
`setTimeout(function () { resolve(calcHash(params)) }, 10)` behaves the same
way. No `reject` is reachable from either site. -/
def loaderStepC (E : LoaderEnv) (calcOk : Bool) (s : LoaderState) : LoaderState :=
  match s.queue with
  | LoaderTask.postRun i :: q =>
    if calcOk then loaderStep E s
    else
      { s with
          fullyLoaded := true
          calcLog := (i, s.module, true) :: s.calcLog
          queue := q }
  | LoaderTask.resolveCalc i :: q =>
    if calcOk then loaderStep E s
    else
      { s with
          calcLog := (i, s.module, s.fullyLoaded) :: s.calcLog
          queue := q }
  | _ => loaderStep E s

/-- The fallback-path event-loop step when the `calcHash` invocation throws:
identical to `fbStep` except that the `then` callback's throw is caught by
the same `catch` that wraps load errors, so the caller is rejected with
`new Error("Error loading argon2-asm.min.js: " + error)` — the thrown result
object stringifies to `[object Object]` and its `code` is lost. -/
def fbStepC (asmOk calcOk : Bool) (s : FbState) : FbState :=
  match s.queue with
  | FbTask.loaded i :: q =>
    if asmOk && !calcOk then
      { s with
          module := true
          calcLog := (i, true, s.fullyLoaded) :: s.calcLog
          rejectedLog := (i, asmErrMsg jsObjectString) :: s.rejectedLog
          queue := q }
    else fbStep asmOk s
  | _ => fbStep asmOk s

theorem loaderStepC_nil (E : LoaderEnv) (c : Bool) (s : LoaderState) (h : s.queue = []) :
    loaderStepC E c s = s := by
  have h1 : loaderStepC E c s = loaderStep E s := by
    simp only [loaderStepC, h]
  rw [h1, loaderStep_nil E s h]

theorem iterate_loaderStepC_nil (E : LoaderEnv) (c : Bool) (k : Nat) (s : LoaderState)
    (h : s.queue = []) : (loaderStepC E c)^[k] s = s := by
  induction k with
  | zero => rfl
  | succ k ih =>
    rw [Function.iterate_succ_apply, loaderStepC_nil E c s h]
    exact ih

/-- C4 (amended). Whenever the engine's hashing function returns a non-zero
status without throwing and its error-message lookup yields a non-empty
message, the hash computation `calcHash` — shared by both backend paths —
throws a failure object whose `code` equals the status and whose message is
the lookup's result; but the `hash()` promise does not surface that object.
On the fallback path the shared `catch` rewraps it into a codeless generic
error embedding only the object's default stringification, and on the
primary path the throw escapes the `resolve` callback inside
`postRun`/`setTimeout`, so the caller's promise never settles, for any
amount of event-loop fuel. -/
theorem hash_error_surfacing_amended (B : EngineBehavior) (p : CalcParams) (s : Int) (m : String)
    (hcall : B.hashCall (calcArgs p) = .ok s) (hs : s ≠ 0)
    (hmsg : B.errorMessage (some s) = .ok m) (hm : m ≠ "") :
    (calcHash B p).outcome = .thrown ⟨some m, some s⟩
    ∧ ((fbStepC true false)^[2] (fbInit 1)).rejectedLog = [(0, asmErrMsg jsObjectString)]
    ∧ ((fbStepC true false)^[2] (fbInit 1)).resolvedLog = []
    ∧ (∀ fuel, settledB ((loaderStepC envOk false)^[fuel] (loaderInit 1)) 0 = false) := by
  refine ⟨nonzero_status_error B p s m hcall hs hmsg hm, by decide, by decide, ?_⟩
  intro fuel
  rcases fuel with _ | _ | _ | _ | k
  · decide
  · decide
  · decide
  · decide
  · rw [show k + 1 + 1 + 1 + 1 = k + 4 from by ring, Function.iterate_add_apply]
    have h4 : (loaderStepC envOk false)^[4] (loaderInit 1) =
        ⟨true, true, .resolved, 1, 1, [], [], [], [(0, true, true)], []⟩ := by
      decide
    rw [h4, iterate_loaderStepC_nil envOk false k _ rfl]
    decide

/-- Witness for C4 (amended) at engine status code 1: `calcHash` throws the
coded failure object, yet after 50 event-loop steps of the primary-path run
the caller's promise is still pending. -/
theorem hash_error_surfacing_witness :
    (calcHash engineStatusOne paramsAbsent).outcome
      = .thrown ⟨some "output pointer mismatch", some 1⟩
    ∧ settledB ((loaderStepC envOk false)^[50] (loaderInit 1)) 0 = false :=
  ⟨(hash_error_surfacing_amended engineStatusOne paramsAbsent 1 "output pointer mismatch"
      rfl (by decide) rfl (by decide)).1,
   (hash_error_surfacing_amended engineStatusOne paramsAbsent 1 "output pointer mismatch"
      rfl (by decide) rfl (by decide)).2.2.2 50⟩

/-- Counterexample to C4 as stated: when `calcHash` throws its coded failure
object, the fallback `hash()` call rejects with the codeless rewrapped load
error instead of the failure object, and the primary-path `hash()` call
settles in neither direction — the run drains its queue into a step fixpoint
with the caller still pending. -/
theorem hash_error_surfacing_counterexample :
    ((fbStepC true false)^[2] (fbInit 1)).rejectedLog = [(0, asmErrMsg jsObjectString)]
    ∧ ((fbStepC true false)^[2] (fbInit 1)).resolvedLog = []
    ∧ ((loaderStepC envOk false)^[4] (loaderInit 1)).queue = []
    ∧ settledB ((loaderStepC envOk false)^[4] (loaderInit 1)) 0 = false
    ∧ loaderStepC envOk false ((loaderStepC envOk false)^[4] (loaderInit 1))
        = (loaderStepC envOk false)^[4] (loaderInit 1) := by
  decide

end Argon2
